import Mathlib

/-!
Verification of the spatial association engine of the `pdf_to_question`
repository against its design document.

Each Python module is embedded as a Lean namespace:

* `ITM`  — `src/image_table_mapper.py` (cell-level overlap-weighted mapper);
  coordinates are modelled as real numbers because the proximity score takes a
  Euclidean square root.
* `SIM`  — `src/simple_image_mapper.py` (Y-axis containment mapper); exact
  rational coordinates.
* `CIM`  — `src/text_pipeline/coordinate_image_mapper.py` and
  `CTM` — `src/text_pipeline/coordinate_table_mapper.py` (question-level
  coordinate mappers); exact rational coordinates.
* `TE`   — `src/text_pipeline/text_extractor.py` (identifier reconciliation /
  asset merging).
* `SEE`  — `src/simple_enhanced_extractor.py` and
  `src/table_pipeline/table_vision_extractor.py` (duplicate identifier
  suffixing).
-/

namespace ITM

/-- Bounding box `(x0, y0, x1, y1)` in page coordinates, as used by
`image_table_mapper.py`. -/
structure BBox where
  x0 : ℝ
  y0 : ℝ
  x1 : ℝ
  y1 : ℝ

/-- `ImageInfo` dataclass (geometry-relevant fields plus identification). -/
structure ImageInfo where
  page_number : Int
  image_index : Int
  bbox : BBox
  file_path : String
  width : Int
  height : Int

/-- `TableCell` dataclass. -/
structure TableCell where
  page_number : Int
  table_index : Int
  row_index : Nat
  col_index : Nat
  bbox : BBox
  text : String

/-- `TableInfo` dataclass. -/
structure TableInfo where
  page_number : Int
  table_index : Int
  bbox : BBox
  cells : List TableCell

/-- `ImageCellMapping` dataclass. -/
structure ImageCellMapping where
  image : ImageInfo
  cell : TableCell
  confidence_score : ℝ
  overlap_area : ℝ

/-- `ImageTableMapper._calculate_overlap_area`: intersection rectangle, zero if
degenerate. -/
noncomputable def calculateOverlapArea (bbox1 bbox2 : BBox) : ℝ :=
  if max bbox1.x0 bbox2.x0 < min bbox1.x1 bbox2.x1 ∧
      max bbox1.y0 bbox2.y0 < min bbox1.y1 bbox2.y1 then
    (min bbox1.x1 bbox2.x1 - max bbox1.x0 bbox2.x0) *
      (min bbox1.y1 bbox2.y1 - max bbox1.y0 bbox2.y0)
  else 0

/-- `ImageTableMapper._calculate_proximity_score`: `max(0, 1 - d/600)` where
`d` is the Euclidean distance of the two centres (Python `** 0.5` on a
non-negative float is the square root). -/
noncomputable def calculateProximityScore (bbox1 bbox2 : BBox) : ℝ :=
  max 0 (1 - Real.sqrt (((bbox1.x0 + bbox1.x1) / 2 - (bbox2.x0 + bbox2.x1) / 2) ^ 2 +
    ((bbox1.y0 + bbox1.y1) / 2 - (bbox2.y0 + bbox2.y1) / 2) ^ 2) / 600)

/-- `ImageTableMapper._calculate_area`. -/
def calculateArea (bbox : BBox) : ℝ :=
  (bbox.x1 - bbox.x0) * (bbox.y1 - bbox.y0)

/-- Overlap ratio as computed inside `map_images_to_cells`
(`overlap_area / image_area` guarded by `image_area > 0`). -/
noncomputable def overlapRatio (imageBBox cellBBox : BBox) : ℝ :=
  if calculateArea imageBBox > 0 then
    calculateOverlapArea imageBBox cellBBox / calculateArea imageBBox
  else 0

/-- Confidence as computed inside `map_images_to_cells`:
`(overlap_ratio * 0.7) + (proximity_score * 0.3)`. -/
noncomputable def confidenceScore (imageBBox cellBBox : BBox) : ℝ :=
  overlapRatio imageBBox cellBBox * 0.7 + calculateProximityScore imageBBox cellBBox * 0.3

/-- The `best_matches` list built inside `map_images_to_cells` for one image:
cells of same-page tables, admitted when
`overlap_ratio >= overlap_threshold or confidence_score >= 0.3`. -/
noncomputable def candidateMappings (image : ImageInfo) (tables : List TableInfo)
    (overlapThreshold : ℝ) : List ImageCellMapping :=
  ((tables.filter (fun t => t.page_number == image.page_number)).flatMap
      (fun t => t.cells)).filterMap (fun cell =>
    if overlapRatio image.bbox cell.bbox ≥ overlapThreshold ∨
        confidenceScore image.bbox cell.bbox ≥ 0.3 then
      some ⟨image, cell, confidenceScore image.bbox cell.bbox,
        calculateOverlapArea image.bbox cell.bbox⟩
    else none)

/-- One step of a stable descending insertion sort on `confidence_score`;
models the stability guarantee of Python's `list.sort(key=..., reverse=True)`:
an element is placed before the first element with strictly smaller or equal
confidence encountered from the left, never before an earlier element of equal
confidence. -/
noncomputable def insertByConfidenceDesc (m : ImageCellMapping) :
    List ImageCellMapping → List ImageCellMapping
  | [] => [m]
  | n :: ns =>
    if m.confidence_score ≥ n.confidence_score then m :: n :: ns
    else n :: insertByConfidenceDesc m ns

/-- Stable sort by decreasing `confidence_score`
(`best_matches.sort(key=lambda x: x.confidence_score, reverse=True)`). -/
noncomputable def sortByConfidenceDesc :
    List ImageCellMapping → List ImageCellMapping
  | [] => []
  | m :: ms => insertByConfidenceDesc m (sortByConfidenceDesc ms)

/-- Per-image body of `map_images_to_cells`: sort the admitted candidates and
keep `best_matches[0]`; an image with no admitted candidate yields nothing. -/
noncomputable def bestMappingFor (image : ImageInfo) (tables : List TableInfo)
    (overlapThreshold : ℝ) : Option ImageCellMapping :=
  match sortByConfidenceDesc (candidateMappings image tables overlapThreshold) with
  | [] => none
  | best :: _ => some best

/-- `ImageTableMapper.map_images_to_cells`. -/
noncomputable def mapImagesToCells (images : List ImageInfo) (tables : List TableInfo)
    (overlapThreshold : ℝ) : List ImageCellMapping :=
  images.filterMap (fun image => bestMappingFor image tables overlapThreshold)

/-- Data-model invariant on bounding boxes: `x1 ≥ x0`, `y1 ≥ y0`. -/
def BBoxValid (b : BBox) : Prop :=
  b.x0 ≤ b.x1 ∧ b.y0 ≤ b.y1

/-! Spec-side formulation of claim C1, written from the specification text:
`confidence = 0.7*overlap_ratio + 0.3*proximity` with
`overlap_ratio = overlap_area/area(image)` (and `0` when the image has zero
area); a candidate is admitted iff `overlap_ratio ≥ threshold` or
`confidence ≥ 0.3`; the emitted mapping is the admitted candidate of maximum
confidence, ties broken in favour of the first-encountered candidate. -/

/-- Spec-side overlap ratio: `0` when the image has zero area. -/
noncomputable def specOverlapRatio (image cell : BBox) : ℝ :=
  if calculateArea image = 0 then 0 else calculateOverlapArea image cell / calculateArea image

/-- Spec-side confidence: `0.7*overlap_ratio + 0.3*proximity`. -/
noncomputable def specConfidence (image cell : BBox) : ℝ :=
  0.7 * specOverlapRatio image cell + 0.3 * calculateProximityScore image cell

/-- Spec-side admitted candidate list: same-page cells whose
`overlap_ratio ≥ threshold` or `confidence ≥ 0.3`. -/
noncomputable def specAdmitted (image : ImageInfo) (tables : List TableInfo)
    (threshold : ℝ) : List ImageCellMapping :=
  ((tables.filter (fun t => t.page_number == image.page_number)).flatMap
      (fun t => t.cells)).filterMap (fun cell =>
    if specOverlapRatio image.bbox cell.bbox ≥ threshold ∨
        specConfidence image.bbox cell.bbox ≥ 0.3 then
      some ⟨image, cell, specConfidence image.bbox cell.bbox,
        calculateOverlapArea image.bbox cell.bbox⟩
    else none)

/-- Spec-side selection: the first-encountered candidate of maximum
confidence. -/
noncomputable def specFirstMax : List ImageCellMapping → Option ImageCellMapping
  | [] => none
  | m :: ms =>
    match specFirstMax ms with
    | none => some m
    | some n => some (if n.confidence_score > m.confidence_score then n else m)

/-- Spec-side mapper of claim C1. -/
noncomputable def specMapImagesToCells (images : List ImageInfo)
    (tables : List TableInfo) (threshold : ℝ) : List ImageCellMapping :=
  images.filterMap (fun image => specFirstMax (specAdmitted image tables threshold))

end ITM

/-- Python's substring test `needle in hay`, checked over character lists:
`needle` occurs contiguously in `hay` (the empty needle always occurs). -/
def PyStr.containsAux (needle : List Char) : List Char → Bool
  | [] => needle.isEmpty
  | c :: cs => needle.isPrefixOf (c :: cs) || PyStr.containsAux needle cs

/-- Python's `needle in hay` on strings. -/
def PyStr.pyIn (needle hay : String) : Bool :=
  PyStr.containsAux needle.data hay.data

/-- Python's `s.strip()`: drop leading and trailing whitespace (structural
recursion over the character list, so concrete instances evaluate). -/
def PyStr.pyStrip (s : String) : String :=
  ⟨((s.data.dropWhile Char.isWhitespace).reverse.dropWhile Char.isWhitespace).reverse⟩

namespace SIM

/-- Bounding box over exact rationals (the Y-axis and coordinate mappers use
no square roots, so their float arithmetic embeds exactly). -/
structure QBBox where
  x0 : ℚ
  y0 : ℚ
  x1 : ℚ
  y1 : ℚ
deriving DecidableEq

/-- Image dict built by `SimpleImageMapper._extract_images`
(`page`, `image_index`, `y_start`, `file_path`, `bbox`). -/
structure YImage where
  page : Int
  image_index : Int
  y_start : ℚ
  file_path : String
  bbox : QBBox
deriving DecidableEq

/-- Cell dict built by `SimpleImageMapper._extract_table_cells`. -/
structure YCell where
  page : Int
  table_index : Int
  row : Nat
  col : Nat
  y_start : ℚ
  y_end : ℚ
  text : String
  bbox : QBBox
deriving DecidableEq

/-- Mapping dict built by `SimpleImageMapper._create_y_axis_mappings`
(the two formatted log strings `cell_y_range` and `mapping_logic` are
presentation-only and omitted). -/
structure YMapping where
  image : YImage
  cell : YCell
  image_bottom_y : ℚ
deriving DecidableEq

/-- Raw table as handed to `_extract_table_cells` by pdfplumber:
its bbox and the extracted grid of cell texts (`None` or a string). -/
structure RawTable where
  bbox : QBBox
  data : List (List (Option String))

/-- `str(cell_text).strip() if cell_text else ""`. -/
def cellTextOf : Option String → String
  | none => ""
  | some s => PyStr.pyStrip s

/-- The cells of one row of a table: every cell of the row carries the same
vertical interval (the row's span) and the full table width. -/
def rowCells (page tindex : Int) (t : RawTable) (cellHeight : ℚ) (rowIndex : Nat)
    (row : List (Option String)) : List YCell :=
  row.enum.map (fun p =>
    { page := page, table_index := tindex, row := rowIndex, col := p.1,
      y_start := t.bbox.y0 + rowIndex * cellHeight,
      y_end := t.bbox.y0 + rowIndex * cellHeight + cellHeight,
      text := cellTextOf p.2,
      bbox := ⟨t.bbox.x0, t.bbox.y0 + rowIndex * cellHeight, t.bbox.x1,
        t.bbox.y0 + rowIndex * cellHeight + cellHeight⟩ })

/-- Cells of one table (`_extract_table_cells` inner loop): skip empty grids,
`cell_height = (y1 - y0) / num_rows`, rows emitted top to bottom, row-major. -/
def cellsOfTable (page tindex : Int) (t : RawTable) : List YCell :=
  if t.data.isEmpty then []
  else if t.data.length = 0 ∨ (t.data.headD []).length = 0 then []
  else
    (t.data.enum.flatMap (fun r =>
      rowCells page tindex t ((t.bbox.y1 - t.bbox.y0) / t.data.length) r.1 r.2))

/-- `SimpleImageMapper._extract_table_cells`: pages in order, tables of a page
in order, 1-based page and table indices. -/
def extractTableCells (pages : List (List RawTable)) : List YCell :=
  pages.enum.flatMap (fun p =>
    p.2.enum.flatMap (fun t => cellsOfTable ((p.1 : Int) + 1) ((t.1 : Int) + 1) t.2))

/-- The scan inside `_create_y_axis_mappings`: first cell (in list order) whose
closed interval `[y_start, y_end]` contains `y`. -/
def findFirstContainingCell (y : ℚ) : List YCell → Option YCell
  | [] => none
  | c :: cs =>
    if c.y_start ≤ y ∧ y ≤ c.y_end then some c else findFirstContainingCell y cs

/-- Per-image body of `_create_y_axis_mappings`: restrict to same-page cells
(preserving order), then take the first containing cell for the image's
bottom-edge Y (`bbox[3]`). -/
def bestCellFor (image : YImage) (cells : List YCell) : Option YCell :=
  findFirstContainingCell image.bbox.y1 (cells.filter (fun c => c.page == image.page))

/-- `SimpleImageMapper._create_y_axis_mappings`. -/
def createYAxisMappings (images : List YImage) (cells : List YCell) : List YMapping :=
  images.filterMap (fun image =>
    match bestCellFor image cells with
    | some best => some ⟨image, best, image.bbox.y1⟩
    | none => none)

end SIM

namespace CIM

/-- Image dict consumed by `CoordinateImageMapper._match_images_to_questions`:
`filename`, `filepath`, `page` and the `coordinates` dict (of which the mapper
reads `y0`). -/
structure QImage where
  filename : String
  filepath : String
  page : Int
  coords : SIM.QBBox
deriving DecidableEq

/-- Question dict built by `_extract_question_coordinates`: the full matched
line, the page (1-based) and the top-Y coordinate. -/
structure PageQuestion where
  question_number : String
  question_text : String
  page : Int
  y_coordinate : ℚ
deriving DecidableEq

/-- The `mapping_info` dict. -/
structure MappingInfo where
  method : String
  distance : ℚ
  confidence : String
deriving DecidableEq

/-- One image-question mapping record. -/
structure QMapping where
  image : QImage
  question : PageQuestion
  info : MappingInfo
deriving DecidableEq

/-- Python `max(questions, key=lambda q: q['y_coordinate'])`: the
first-encountered element with maximal `y_coordinate`. -/
def maxByY : List PageQuestion → Option PageQuestion
  | [] => none
  | q :: qs =>
    match maxByY qs with
    | none => some q
    | some m => some (if m.y_coordinate > q.y_coordinate then m else q)

/-- Python `min(questions, key=lambda q: q['y_coordinate'])`: the
first-encountered element with minimal `y_coordinate`. -/
def minByY : List PageQuestion → Option PageQuestion
  | [] => none
  | q :: qs =>
    match minByY qs with
    | none => some q
    | some m => some (if m.y_coordinate < q.y_coordinate then m else q)

/-- `'high' if distance < 200 else 'medium' if distance < 400 else 'low'`. -/
def confidenceTier (d : ℚ) : String :=
  if d < 200 then "high" else if d < 400 then "medium" else "low"

/-- Per-image body of `_match_images_to_questions`: the nearest question
strictly above wins; with no question above, fall back to the topmost question
of the page; with no question at all, no mapping. -/
def mapImageToQuestion (image : QImage) (questions : List PageQuestion) : Option QMapping :=
  match maxByY (questions.filter (fun q => decide (q.y_coordinate < image.coords.y0))) with
  | some closest =>
    some ⟨image, closest,
      ⟨"coordinate_based", image.coords.y0 - closest.y_coordinate,
        confidenceTier (image.coords.y0 - closest.y_coordinate)⟩⟩
  | none =>
    match minByY questions with
    | some first =>
      some ⟨image, first,
        ⟨"coordinate_based_fallback", |image.coords.y0 - first.y_coordinate|, "low"⟩⟩
    | none => none

/-- `CoordinateImageMapper._match_images_to_questions` (images and questions
of one page). -/
def matchImagesToQuestions (images : List QImage) (questions : List PageQuestion) :
    List QMapping :=
  images.filterMap (fun image => mapImageToQuestion image questions)

end CIM

namespace CTM

/-- Table dict built by `CoordinateTableMapper._extract_tables`; its bbox is
stored as `x`/`y`/`width`/`height` and `y_coordinate = y0`. -/
structure CTable where
  path : String
  filename : String
  page_number : Int
  y_coordinate : ℚ
  x : ℚ
  y : ℚ
  width : ℚ
  height : ℚ
  rows : Nat
  columns : Nat
  linked_question : Option String
deriving DecidableEq

/-- Question dict built by `CoordinateTableMapper._extract_questions`. -/
structure CQuestion where
  page : Int
  question_number : String
  y_coordinate : ℚ
deriving DecidableEq

/-- Python `max(page_questions, key=lambda q: q['y_coordinate'])`. -/
def maxByY : List CQuestion → Option CQuestion
  | [] => none
  | q :: qs =>
    match maxByY qs with
    | none => some q
    | some m => some (if m.y_coordinate > q.y_coordinate then m else q)

/-- Per-table body of `_link_tables_to_questions`: same-page questions strictly
above the table; link the closest one, else link `None`. -/
def linkTable (table : CTable) (questions : List CQuestion) : CTable :=
  match maxByY (questions.filter (fun q =>
      q.page == table.page_number && decide (q.y_coordinate < table.y_coordinate))) with
  | some closest => { table with linked_question := some closest.question_number }
  | none => { table with linked_question := none }

/-- `CoordinateTableMapper._link_tables_to_questions`. -/
def linkTablesToQuestions (tables : List CTable) (questions : List CQuestion) :
    List CTable :=
  tables.map (fun t => linkTable t questions)

end CTM

namespace CIM

/-- Example question labels at `y = 50`, `150`, `300` (spec §8.7/§8.8). -/
def exQ50 : PageQuestion := ⟨"Question 1", "Question 1", 1, 50⟩

/-- Example question label at `y = 150`. -/
def exQ150 : PageQuestion := ⟨"Question 2", "Question 2", 1, 150⟩

/-- Example question label at `y = 300`. -/
def exQ300 : PageQuestion := ⟨"Question 3", "Question 3", 1, 300⟩

/-- Example image with top edge `y0 = 200`. -/
def exImgY200 : QImage := ⟨"page1_img1.png", "images/page1_img1.png", 1, ⟨0, 200, 100, 250⟩⟩

/-- Example image with top edge `y0 = 10`, above all labels. -/
def exImgY10 : QImage := ⟨"page1_img2.png", "images/page1_img2.png", 1, ⟨0, 10, 100, 20⟩⟩

end CIM

namespace CTM

/-- Example table with top edge `y = 10`, above the page's only label. -/
def exCTable : CTable :=
  ⟨"output/assets/page1_table1.json", "page1_table1.json", 1, 10, 0, 10, 100, 20, 2, 2, none⟩

/-- Example question label at `y = 50` on the table's page. -/
def exCQuestion : CQuestion := ⟨1, "Question 1", 50⟩

end CTM


namespace TE

/-- `Asset` as filled by `TextExtractor` (`asset_type`, `asset_path`,
`asset_description`, `bbox` as a key-value dict, `page_number`). -/
structure Asset where
  asset_type : String
  asset_path : String
  asset_description : String
  bbox : List (String × ℚ)
  page_number : Int
deriving DecidableEq

/-- `Question` as consumed by the asset-linking passes (`question_number`,
`pdf_page`, `assets`; the remaining fields do not participate). -/
structure MQuestion where
  question_number : String
  pdf_page : Int
  assets : List Asset
deriving DecidableEq

/-- Image asset built inside `_merge_results` from a mapping's `image` dict
(the stored `center_x`/`center_y` are the midpoints computed by
`extract_images_with_metadata`). -/
def mkImageAsset (qnum : String) (img : CIM.QImage) : Asset :=
  { asset_type := "image", asset_path := img.filepath,
    asset_description := "Image mapped to question " ++ qnum,
    bbox := [("x0", img.coords.x0), ("y0", img.coords.y0),
      ("x1", img.coords.x1), ("y1", img.coords.y1),
      ("center_x", (img.coords.x0 + img.coords.x1) / 2),
      ("center_y", (img.coords.y0 + img.coords.y1) / 2)],
    page_number := img.page }

/-- The admission test of `_merge_results`: the mapping's question page equals
the question's page AND the question's stripped identifier occurs inside the
mapper's stripped label. -/
def imageMatchCond (q : MQuestion) (mp : CIM.QMapping) : Bool :=
  mp.question.page == q.pdf_page &&
    PyStr.pyIn (PyStr.pyStrip q.question_number)
      (PyStr.pyStrip mp.question.question_number)

/-- `TextExtractor._merge_results`: per question, collect the image mappings
on the same page whose (trimmed) mapper label contains the question's trimmed
identifier, and append the corresponding image assets. -/
def mergeResults (all_questions : List MQuestion) (mappings : List CIM.QMapping) :
    List MQuestion :=
  all_questions.map (fun q =>
    let matching := mappings.filter (imageMatchCond q)
    { q with assets := q.assets ++ matching.map (fun mp => mkImageAsset q.question_number mp.image) })

/-- Table asset built inside `_link_tables_using_coordinate_mapper`. -/
def mkTableAsset (t : CTM.CTable) : Asset :=
  { asset_type := "table", asset_path := t.path,
    asset_description := "Table with " ++ toString t.rows ++ " rows and " ++
      toString t.columns ++ " columns",
    bbox := [("x", t.x), ("y", t.y), ("width", t.width), ("height", t.height)],
    page_number := t.page_number }

/-- The per-(question, table) body of the two nested loops of
`_link_tables_using_coordinate_mapper`: a truthy `linked_question` whose
stripped text contains the question's stripped identifier yields a table
asset — note there is no page comparison. -/
def tableAssetFor (q : MQuestion) (t : CTM.CTable) : Option Asset :=
  match t.linked_question with
  | none => none
  | some lq =>
    if lq = "" then none
    else if PyStr.pyIn (PyStr.pyStrip q.question_number) (PyStr.pyStrip lq) then
      some (mkTableAsset t)
    else none

/-- `TextExtractor._link_tables_using_coordinate_mapper` (the per-question
effect of the two nested loops; per question, assets arrive in table order). -/
def linkTableAssets (questions : List MQuestion) (linked_tables : List CTM.CTable) :
    List MQuestion :=
  questions.map (fun q =>
    { q with assets := q.assets ++ linked_tables.filterMap (tableAssetFor q) })

/-- Example question on page 2 whose identifier is contained in the example
table's linked label. -/
def exQuestionPage2 : MQuestion := ⟨"1.", 2, []⟩

/-- Example linked table on page 1 (label `"1. Compute"`). -/
def exLinkedTable : CTM.CTable :=
  ⟨"output/assets/page1_table1.json", "page1_table1.json", 1, 100, 0, 100, 50, 40, 2, 2,
    some "1. Compute"⟩

end TE

namespace SEE

/-- The candidate identifiers tried by the duplicate-suppression loop:
the raw id, then `raw_1`, `raw_2`, … . -/
def candidateAt (original : String) : Nat → String
  | 0 => original
  | k + 1 => original ++ "_" ++ Nat.repr (k + 1)

/-- The `while unique_question_id in processed_question_ids` loop of
`_create_merged_state` / `_create_question_objects`, with explicit fuel.
Fuel `processed.length + 1` is provably sufficient (decimal suffixes are
pairwise distinct), so the fuelled function equals the Python loop. -/
def dedupGo (processed : List String) (original : String) : Nat → Nat → String
  | 0, k => candidateAt original k
  | fuel + 1, k =>
    if candidateAt original k ∈ processed then dedupGo processed original fuel (k + 1)
    else candidateAt original k

/-- Resolve one raw identifier against the set of already-emitted ones. -/
def dedup (processed : List String) (original : String) : String :=
  dedupGo processed original (processed.length + 1) 0

/-- The generation-order scan: each question's raw id is resolved against the
ids emitted so far, and the result is added to the processed set. -/
def assignIdsGo (processed : List String) : List String → List String
  | [] => []
  | raw :: raws =>
    dedup processed raw :: assignIdsGo (dedup processed raw :: processed) raws

/-- All emitted question identifiers of one run, in generation order. -/
def assignIds (raws : List String) : List String :=
  assignIdsGo [] raws

/-- `f"page{question_page}_question{question_num}"` (braces in the Python
source are format-string syntax). -/
def rawQuestionId (page : Int) (question_num : String) : String :=
  "page" ++ toString page ++ "_question" ++ question_num

/-- Decimal value of a digit character (inverse of `Nat.digitChar` below 10). -/
def digitVal (c : Char) : Nat := c.toNat - 48

/-- Value of a most-significant-first digit string. -/
def digitsVal (l : List Char) : Nat :=
  l.foldl (fun a c => a * 10 + digitVal c) 0

end SEE

namespace ITM

/-- Concrete example input: a unit-square-like box used to exercise the
cell-level mapper on the scenario of spec §8.10. -/
def exBBox : BBox := ⟨0, 0, 2, 2⟩

/-- Concrete example image. -/
def exImage : ImageInfo := ⟨1, 1, exBBox, "page1_img1.png", 2, 2⟩

/-- Concrete example cell coinciding with the example image. -/
def exCell : TableCell := ⟨1, 1, 0, 0, exBBox, "1"⟩

/-- Concrete example table holding `exCell`. -/
def exTable : TableInfo := ⟨1, 1, exBBox, [exCell]⟩

/-- The mapping the cell-level mapper emits for `exImage` against
`exTable`. -/
noncomputable def exMapping : ImageCellMapping :=
  ⟨exImage, exCell, confidenceScore exBBox exBBox, calculateOverlapArea exBBox exBBox⟩

end ITM

namespace SIM

/-- Verification infrastructure for the Y-axis mapper: a row block is a run of
cells that share one page and one vertical interval and whose first cell (if
any) sits in column `0`; `_extract_table_cells` emits exactly such runs. -/
def UniformRowBlock (b : List YCell) : Prop :=
  (∃ p ys ye, ∀ c ∈ b, c.page = p ∧ c.y_start = ys ∧ c.y_end = ye) ∧
  ∀ c, b.head? = some c → c.col = 0

/-- A cell list that is a concatenation of uniform row blocks. -/
inductive RowBlocks : List YCell → Prop
  | nil : RowBlocks []
  | cons (b rest : List YCell) : UniformRowBlock b → RowBlocks rest →
      RowBlocks (b ++ rest)

/-- Concrete example image for the Y-axis mapper: bottom edge at `y = 5`. -/
def exYImage : YImage := ⟨1, 1, 0, "page1_img1.png", ⟨0, 0, 100, 5⟩⟩

/-- Concrete example cell with vertical span `[0, 10]`. -/
def exYCell : YCell := ⟨1, 1, 0, 0, 0, 10, "A", ⟨0, 0, 100, 10⟩⟩

/-- Concrete example raw table: one row, two columns, height 10. -/
def exRawTable : RawTable := ⟨⟨0, 0, 100, 10⟩, [[some "A", some "B"]]⟩

end SIM

namespace ITM

/-! Lemmas connecting the source-side mapper with the spec-side one. -/

theorem insertByConfidenceDesc_ne_nil (m : ImageCellMapping)
    (l : List ImageCellMapping) : insertByConfidenceDesc m l ≠ [] := by
  cases l with
  | nil => simp [insertByConfidenceDesc]
  | cons n ns =>
    simp only [insertByConfidenceDesc]
    split <;> simp

theorem head?_insertByConfidenceDesc (m : ImageCellMapping)
    (l : List ImageCellMapping) :
    (insertByConfidenceDesc m l).head? =
      match l.head? with
      | none => some m
      | some n => some (if m.confidence_score ≥ n.confidence_score then m else n) := by
  cases l with
  | nil => simp [insertByConfidenceDesc]
  | cons n ns =>
    by_cases hge : m.confidence_score ≥ n.confidence_score
    · simp [insertByConfidenceDesc, hge]
    · simp [insertByConfidenceDesc, hge]

theorem head?_sortByConfidenceDesc (l : List ImageCellMapping) :
    (sortByConfidenceDesc l).head? = specFirstMax l := by
  induction l with
  | nil => simp [sortByConfidenceDesc, specFirstMax]
  | cons m ms ih =>
    simp only [sortByConfidenceDesc, specFirstMax, head?_insertByConfidenceDesc, ih]
    cases h : specFirstMax ms with
    | none => simp
    | some n =>
      simp only []
      by_cases hge : m.confidence_score ≥ n.confidence_score
      · rw [if_pos hge, if_neg (by exact not_lt.mpr hge)]
      · rw [if_neg hge, if_pos (lt_of_not_ge hge)]

theorem bestMappingFor_eq_specFirstMax (image : ImageInfo) (tables : List TableInfo)
    (threshold : ℝ) :
    bestMappingFor image tables threshold =
      specFirstMax (candidateMappings image tables threshold) := by
  rw [← head?_sortByConfidenceDesc]
  unfold bestMappingFor
  cases h : sortByConfidenceDesc (candidateMappings image tables threshold) <;> simp [h]

theorem overlapRatio_eq_spec (imageBBox cellBBox : BBox) (h : BBoxValid imageBBox) :
    overlapRatio imageBBox cellBBox = specOverlapRatio imageBBox cellBBox := by
  have harea : 0 ≤ calculateArea imageBBox :=
    mul_nonneg (by linarith [h.1]) (by linarith [h.2])
  unfold overlapRatio specOverlapRatio
  rcases lt_or_eq_of_le harea with hpos | hzero
  · rw [if_pos hpos, if_neg (by linarith)]
  · rw [if_neg (by linarith), if_pos hzero.symm]

theorem confidenceScore_eq_spec (imageBBox cellBBox : BBox) (h : BBoxValid imageBBox) :
    confidenceScore imageBBox cellBBox = specConfidence imageBBox cellBBox := by
  unfold confidenceScore specConfidence
  rw [overlapRatio_eq_spec imageBBox cellBBox h]
  ring

theorem candidateMappings_eq_specAdmitted (image : ImageInfo) (tables : List TableInfo)
    (threshold : ℝ) (h : BBoxValid image.bbox) :
    candidateMappings image tables threshold = specAdmitted image tables threshold := by
  unfold candidateMappings specAdmitted
  apply List.filterMap_congr
  intro cell _
  rw [overlapRatio_eq_spec image.bbox cell.bbox h, confidenceScore_eq_spec image.bbox cell.bbox h]

/-- **C1.** For every image (with a valid bounding box, as the data model
requires), considering only cells of tables on the same page: each candidate's
confidence is `0.7*overlap_ratio + 0.3*proximity` with the zero-area guard, a
candidate is admitted iff `overlap_ratio ≥ threshold` or `confidence ≥ 0.3`,
and the emitted mapping is the first-encountered admitted candidate of maximum
confidence — i.e. the source mapper coincides with the spec-side mapper. -/
theorem claim_C1_cell_mapper_selection (images : List ImageInfo)
    (tables : List TableInfo) (threshold : ℝ)
    (hvalid : ∀ image ∈ images, BBoxValid image.bbox) :
    mapImagesToCells images tables threshold = specMapImagesToCells images tables threshold := by
  unfold mapImagesToCells specMapImagesToCells
  apply List.filterMap_congr
  intro image himg
  rw [bestMappingFor_eq_specFirstMax,
    candidateMappings_eq_specAdmitted image tables threshold (hvalid image himg)]

end ITM

/-- A `filterMap` over a duplicate-free list, whose function fixes the key of
everything it emits, emits pairwise distinct keys. -/
theorem filterMap_pairwise_key_ne {α β : Type*} (f : α → Option β) (key : β → α)
    (l : List α) (hf : ∀ a b, f a = some b → key b = a) (hnd : l.Nodup) :
    (l.filterMap f).Pairwise (fun x y => key x ≠ key y) := by
  induction l with
  | nil => simp
  | cons a as ih =>
    rw [List.filterMap_cons]
    have hnd' := List.nodup_cons.mp hnd
    cases h : f a with
    | none => exact ih hnd'.2
    | some b =>
      refine List.Pairwise.cons ?_ (ih hnd'.2)
      intro y hy
      obtain ⟨a', ha', hfa'⟩ := List.mem_filterMap.mp hy
      rw [hf a b h, hf a' y hfa']
      intro hcontra
      exact hnd'.1 (hcontra ▸ ha')

namespace ITM

theorem specFirstMax_mem (l : List ImageCellMapping) (m : ImageCellMapping)
    (h : specFirstMax l = some m) : m ∈ l := by
  induction l generalizing m with
  | nil => simp [specFirstMax] at h
  | cons a as ih =>
    rw [specFirstMax] at h
    cases hs : specFirstMax as with
    | none =>
      rw [hs] at h
      simp only [Option.some.injEq] at h
      exact h ▸ List.mem_cons_self a as
    | some n =>
      rw [hs] at h
      simp only [Option.some.injEq] at h
      by_cases hc : n.confidence_score > a.confidence_score
      · rw [if_pos hc] at h
        exact h ▸ List.mem_cons_of_mem a (ih n hs)
      · rw [if_neg hc] at h
        exact h ▸ List.mem_cons_self a as

theorem mem_candidateMappings (image : ImageInfo) (tables : List TableInfo)
    (threshold : ℝ) (m : ImageCellMapping)
    (h : m ∈ candidateMappings image tables threshold) :
    m.image = image ∧ (∃ t ∈ tables, m.cell ∈ t.cells) ∧
      m.confidence_score = confidenceScore image.bbox m.cell.bbox := by
  unfold candidateMappings at h
  obtain ⟨cell, hcell, heq⟩ := List.mem_filterMap.mp h
  obtain ⟨t, ht, hc⟩ := List.mem_flatMap.mp hcell
  have ht' : t ∈ tables := (List.mem_filter.mp ht).1
  split at heq
  · injection heq with h'
    subst h'
    exact ⟨rfl, ⟨t, ht', hc⟩, rfl⟩
  · exact absurd heq (by simp)

theorem calculateOverlapArea_nonneg (b1 b2 : BBox) : 0 ≤ calculateOverlapArea b1 b2 := by
  unfold calculateOverlapArea
  split
  · rename_i hcond
    exact le_of_lt (mul_pos (by linarith [hcond.1]) (by linarith [hcond.2]))
  · exact le_refl 0

theorem calculateOverlapArea_le_area (b1 b2 : BBox) (h : BBoxValid b1) :
    calculateOverlapArea b1 b2 ≤ calculateArea b1 := by
  unfold calculateOverlapArea calculateArea
  split
  · rename_i hcond
    apply mul_le_mul
    · have h1 := min_le_left b1.x1 b2.x1
      have h2 := le_max_left b1.x0 b2.x0
      linarith
    · have h1 := min_le_left b1.y1 b2.y1
      have h2 := le_max_left b1.y0 b2.y0
      linarith
    · linarith [hcond.2]
    · linarith [h.1]
  · exact mul_nonneg (by linarith [h.1]) (by linarith [h.2])

theorem calculateProximityScore_nonneg (b1 b2 : BBox) :
    0 ≤ calculateProximityScore b1 b2 :=
  le_max_left 0 _

theorem calculateProximityScore_le_one (b1 b2 : BBox) :
    calculateProximityScore b1 b2 ≤ 1 := by
  unfold calculateProximityScore
  apply max_le
  · norm_num
  · have h := Real.sqrt_nonneg (((b1.x0 + b1.x1) / 2 - (b2.x0 + b2.x1) / 2) ^ 2 +
      ((b1.y0 + b1.y1) / 2 - (b2.y0 + b2.y1) / 2) ^ 2)
    have h' : (0:ℝ) ≤ Real.sqrt (((b1.x0 + b1.x1) / 2 - (b2.x0 + b2.x1) / 2) ^ 2 +
        ((b1.y0 + b1.y1) / 2 - (b2.y0 + b2.y1) / 2) ^ 2) / 600 := by
      exact div_nonneg h (by norm_num)
    linarith

theorem overlapRatio_nonneg (b1 b2 : BBox) : 0 ≤ overlapRatio b1 b2 := by
  unfold overlapRatio
  split
  · rename_i hpos
    exact div_nonneg (calculateOverlapArea_nonneg b1 b2) (le_of_lt hpos)
  · exact le_refl 0

theorem overlapRatio_le_one (b1 b2 : BBox) (h : BBoxValid b1) :
    overlapRatio b1 b2 ≤ 1 := by
  unfold overlapRatio
  split
  · rename_i hpos
    rw [div_le_one hpos]
    exact calculateOverlapArea_le_area b1 b2 h
  · norm_num

theorem confidenceScore_nonneg (b1 b2 : BBox) : 0 ≤ confidenceScore b1 b2 := by
  unfold confidenceScore
  have h1 := overlapRatio_nonneg b1 b2
  have h2 := calculateProximityScore_nonneg b1 b2
  linarith

theorem confidenceScore_le_one (b1 b2 : BBox) (h : BBoxValid b1) :
    confidenceScore b1 b2 ≤ 1 := by
  unfold confidenceScore
  have h1 := overlapRatio_le_one b1 b2 h
  have h2 := calculateProximityScore_le_one b1 b2
  have h3 := overlapRatio_nonneg b1 b2
  have h4 := calculateProximityScore_nonneg b1 b2
  linarith

/-- **C7.** For inputs whose bounding boxes satisfy the data-model invariant
`x1 ≥ x0 ∧ y1 ≥ y0`, the confidence score carried by any `ImageCellMapping`
produced by the cell-level mapper lies in `[0, 1]`: the overlap ratio is at
most `1` (the overlap area never exceeds the image's area) and the proximity
score `max(0, 1 - distance/600)` lies in `[0, 1]`. -/
theorem claim_C7_confidence_in_unit_interval (images : List ImageInfo)
    (tables : List TableInfo) (threshold : ℝ)
    (himg : ∀ image ∈ images, BBoxValid image.bbox)
    (_hcell : ∀ t ∈ tables, ∀ c ∈ t.cells, BBoxValid c.bbox)
    (m : ImageCellMapping) (hm : m ∈ mapImagesToCells images tables threshold) :
    0 ≤ m.confidence_score ∧ m.confidence_score ≤ 1 := by
  unfold mapImagesToCells at hm
  obtain ⟨image, himage, hbest⟩ := List.mem_filterMap.mp hm
  rw [bestMappingFor_eq_specFirstMax] at hbest
  have hmem := specFirstMax_mem _ _ hbest
  obtain ⟨_, _, hconf⟩ := mem_candidateMappings image tables threshold m hmem
  rw [hconf]
  exact ⟨confidenceScore_nonneg _ _, confidenceScore_le_one _ _ (himg image himage)⟩

end ITM

namespace ITM

theorem exBBox_valid : BBoxValid exBBox := by
  constructor <;> norm_num [exBBox]

theorem calculateOverlapArea_exBBox : calculateOverlapArea exBBox exBBox = 4 := by
  norm_num [calculateOverlapArea, exBBox]

theorem calculateArea_exBBox : calculateArea exBBox = 4 := by
  norm_num [calculateArea, exBBox]

theorem calculateProximityScore_exBBox : calculateProximityScore exBBox exBBox = 1 := by
  have h : (((0:ℝ) + 2) / 2 - (0 + 2) / 2) ^ 2 + ((0 + 2) / 2 - (0 + 2) / 2) ^ 2 = 0 := by
    norm_num
  rw [calculateProximityScore]
  norm_num [exBBox, Real.sqrt_zero]

theorem overlapRatio_exBBox : overlapRatio exBBox exBBox = 1 := by
  rw [overlapRatio, calculateArea_exBBox, calculateOverlapArea_exBBox]
  norm_num

theorem confidenceScore_exBBox : confidenceScore exBBox exBBox = 1 := by
  rw [confidenceScore, overlapRatio_exBBox, calculateProximityScore_exBBox]
  norm_num

theorem candidateMappings_ex :
    candidateMappings exImage [exTable] (1 / 10) = [exMapping] := by
  rw [candidateMappings]
  have hfil : [exTable].filter (fun t => t.page_number == exImage.page_number) = [exTable] := by
    simp [exTable, exImage]
  rw [hfil]
  have hcells : [exTable].flatMap (fun t => t.cells) = [exCell] := by
    simp [exTable]
  rw [hcells]
  have hcond : overlapRatio exImage.bbox exCell.bbox ≥ 1 / 10 ∨
      confidenceScore exImage.bbox exCell.bbox ≥ 0.3 := by
    left
    show overlapRatio exBBox exBBox ≥ 1 / 10
    rw [overlapRatio_exBBox]
    norm_num
  simp only [List.filterMap_cons, List.filterMap_nil]
  rw [if_pos hcond]
  rfl

theorem bestMappingFor_ex :
    bestMappingFor exImage [exTable] (1 / 10) = some exMapping := by
  rw [bestMappingFor, candidateMappings_ex]
  rfl

theorem mapImagesToCells_ex :
    mapImagesToCells [exImage] [exTable] (1 / 10) = [exMapping] := by
  rw [mapImagesToCells]
  simp only [List.filterMap_cons, List.filterMap_nil, bestMappingFor_ex]

end ITM

namespace ITM

/-- Witness for C1: the equivalence instantiated on the concrete example
input. -/
theorem claim_C1_witness :
    mapImagesToCells [exImage] [exTable] (1 / 10) =
      specMapImagesToCells [exImage] [exTable] (1 / 10) := by
  apply claim_C1_cell_mapper_selection
  intro image himage
  rw [List.mem_singleton.mp himage]
  exact exBBox_valid

/-- Witness for C7: the bounds instantiated on the concrete mapping the
cell-level mapper emits for the example input. -/
theorem claim_C7_witness :
    0 ≤ exMapping.confidence_score ∧ exMapping.confidence_score ≤ 1 := by
  apply claim_C7_confidence_in_unit_interval [exImage] [exTable] (1 / 10)
  · intro image himage
    rw [List.mem_singleton.mp himage]
    exact exBBox_valid
  · intro t ht c hc
    rw [List.mem_singleton.mp ht] at hc
    have : c = exCell := by
      simpa [exTable] using hc
    rw [this]
    exact exBBox_valid
  · rw [mapImagesToCells_ex]
    exact List.mem_singleton_self _

end ITM

namespace SIM

theorem findFirstContainingCell_some (y : ℚ) (l : List YCell) (c : YCell)
    (h : findFirstContainingCell y l = some c) :
    c ∈ l ∧ (c.y_start ≤ y ∧ y ≤ c.y_end) ∧
      ∃ l1 l2, l = l1 ++ c :: l2 ∧
        ∀ d ∈ l1, ¬(d.y_start ≤ y ∧ y ≤ d.y_end) := by
  induction l with
  | nil => simp [findFirstContainingCell] at h
  | cons d ds ih =>
    rw [findFirstContainingCell] at h
    split at h
    · rename_i hcond
      injection h with h'
      subst h'
      exact ⟨List.mem_cons_self _ _, hcond, [], ds, rfl, by simp⟩
    · rename_i hcond
      obtain ⟨hmem, hc, l1, l2, heq, hall⟩ := ih h
      refine ⟨List.mem_cons_of_mem d hmem, hc, d :: l1, l2,
        by rw [List.cons_append, heq], ?_⟩
      intro e he
      rcases List.mem_cons.mp he with rfl | he'
      · exact hcond
      · exact hall e he'

theorem findFirstContainingCell_eq_none (y : ℚ) (l : List YCell)
    (h : ∀ d ∈ l, ¬(d.y_start ≤ y ∧ y ≤ d.y_end)) :
    findFirstContainingCell y l = none := by
  induction l with
  | nil => rfl
  | cons d ds ih =>
    rw [findFirstContainingCell, if_neg (h d (List.mem_cons_self d ds))]
    exact ih (fun e he => h e (List.mem_cons_of_mem d he))

/-- **C5.** The Y-axis mapper restricts candidates to same-page cells in
extraction order and maps the image to the first cell whose closed interval
`[y_start, y_end]` contains the image's bottom-edge `y1`; when no same-page
cell contains it, the image yields no mapping (the mapper is total — no
error). -/
theorem claim_C5_y_axis_containment (image : YImage) (cells : List YCell) :
    (∀ c, bestCellFor image cells = some c →
      c ∈ cells ∧ c.page = image.page ∧
      (c.y_start ≤ image.bbox.y1 ∧ image.bbox.y1 ≤ c.y_end) ∧
      ∃ l1 l2, cells.filter (fun d => d.page == image.page) = l1 ++ c :: l2 ∧
        ∀ d ∈ l1, ¬(d.y_start ≤ image.bbox.y1 ∧ image.bbox.y1 ≤ d.y_end)) ∧
    ((∀ c ∈ cells, c.page = image.page →
        ¬(c.y_start ≤ image.bbox.y1 ∧ image.bbox.y1 ≤ c.y_end)) →
      createYAxisMappings [image] cells = []) := by
  constructor
  · intro c hc
    unfold bestCellFor at hc
    obtain ⟨hmem, hcond, l1, l2, heq, hall⟩ := findFirstContainingCell_some _ _ _ hc
    have hmem' := List.mem_filter.mp hmem
    refine ⟨hmem'.1, by simpa using hmem'.2, hcond, l1, l2, heq, hall⟩
  · intro h
    have hnone : bestCellFor image cells = none := by
      unfold bestCellFor
      apply findFirstContainingCell_eq_none
      intro d hd
      have hd' := List.mem_filter.mp hd
      exact h d hd'.1 (by simpa using hd'.2)
    simp [createYAxisMappings, hnone]

/-- Witness for C5 on a concrete image/cell pair: the selected cell's interval
contains the image's bottom edge. -/
theorem claim_C5_witness :
    exYCell.y_start ≤ exYImage.bbox.y1 ∧ exYImage.bbox.y1 ≤ exYCell.y_end :=
  ((claim_C5_y_axis_containment exYImage [exYCell]).1 exYCell (by decide)).2.2.1

theorem RowBlocks.append_rb {l1 l2 : List YCell} (h1 : RowBlocks l1)
    (h2 : RowBlocks l2) : RowBlocks (l1 ++ l2) := by
  induction h1 with
  | nil => simpa
  | cons b rest hb _ ih =>
    rw [List.append_assoc]
    exact RowBlocks.cons b (rest ++ l2) hb ih

theorem uniformRowBlock_rowCells (page tindex : Int) (t : RawTable) (ch : ℚ)
    (rowIndex : Nat) (row : List (Option String)) :
    UniformRowBlock (rowCells page tindex t ch rowIndex row) := by
  constructor
  · refine ⟨page, t.bbox.y0 + rowIndex * ch, t.bbox.y0 + rowIndex * ch + ch, ?_⟩
    intro c hc
    obtain ⟨q, _, rfl⟩ := List.mem_map.mp hc
    exact ⟨rfl, rfl, rfl⟩
  · intro c hc
    cases row with
    | nil => simp [rowCells] at hc
    | cons a as =>
      simp only [rowCells, List.enum_cons, List.map_cons, List.head?_cons,
        Option.some.injEq] at hc
      rw [← hc]

theorem rowBlocks_flatMap_uniform {α : Type*} (l : List α) (f : α → List YCell)
    (h : ∀ x ∈ l, UniformRowBlock (f x)) : RowBlocks (l.flatMap f) := by
  induction l with
  | nil => simpa using RowBlocks.nil
  | cons a as ih =>
    rw [List.flatMap_cons]
    exact RowBlocks.cons _ _ (h a (List.mem_cons_self a as))
      (ih fun x hx => h x (List.mem_cons_of_mem a hx))

theorem rowBlocks_flatMap_rb {α : Type*} (l : List α) (f : α → List YCell)
    (h : ∀ x ∈ l, RowBlocks (f x)) : RowBlocks (l.flatMap f) := by
  induction l with
  | nil => simpa using RowBlocks.nil
  | cons a as ih =>
    rw [List.flatMap_cons]
    exact RowBlocks.append_rb (h a (List.mem_cons_self a as))
      (ih fun x hx => h x (List.mem_cons_of_mem a hx))

theorem rowBlocks_cellsOfTable (page tindex : Int) (t : RawTable) :
    RowBlocks (cellsOfTable page tindex t) := by
  unfold cellsOfTable
  split
  · exact RowBlocks.nil
  · split
    · exact RowBlocks.nil
    · exact rowBlocks_flatMap_uniform _ _
        (fun r _ => uniformRowBlock_rowCells page tindex t _ r.1 r.2)

theorem rowBlocks_extractTableCells (pages : List (List RawTable)) :
    RowBlocks (extractTableCells pages) :=
  rowBlocks_flatMap_rb _ _ (fun _ _ =>
    rowBlocks_flatMap_rb _ _ (fun t _ => rowBlocks_cellsOfTable _ _ t.2))

theorem uniformRowBlock_filter (b : List YCell) (pg : Int)
    (h : UniformRowBlock b) :
    UniformRowBlock (b.filter (fun c => c.page == pg)) := by
  obtain ⟨⟨p, ys, ye, hall⟩, hhead⟩ := h
  by_cases hp : p = pg
  · have hfil : b.filter (fun c => c.page == pg) = b := by
      apply List.filter_eq_self.mpr
      intro c hc
      simp [(hall c hc).1, hp]
    rw [hfil]
    exact ⟨⟨p, ys, ye, hall⟩, hhead⟩
  · have hfil : b.filter (fun c => c.page == pg) = [] := by
      apply List.filter_eq_nil_iff.mpr
      intro c hc
      simp [(hall c hc).1, hp]
    rw [hfil]
    exact ⟨⟨p, ys, ye, by simp⟩, by simp⟩

theorem rowBlocks_filter (l : List YCell) (pg : Int) (h : RowBlocks l) :
    RowBlocks (l.filter (fun c => c.page == pg)) := by
  induction h with
  | nil => exact RowBlocks.nil
  | cons b rest hb _ ih =>
    rw [List.filter_append]
    exact RowBlocks.cons _ _ (uniformRowBlock_filter b pg hb) ih

theorem findFirstContainingCell_skip (y : ℚ) (cs rest : List YCell)
    (h : ∀ d ∈ cs, ¬(d.y_start ≤ y ∧ y ≤ d.y_end)) :
    findFirstContainingCell y (cs ++ rest) = findFirstContainingCell y rest := by
  induction cs with
  | nil => rfl
  | cons d ds ih =>
    rw [List.cons_append, findFirstContainingCell,
      if_neg (h d (List.mem_cons_self d ds))]
    exact ih (fun e he => h e (List.mem_cons_of_mem d he))

theorem findFirst_rowBlocks_col (y : ℚ) (l : List YCell) (h : RowBlocks l) :
    ∀ c, findFirstContainingCell y l = some c → c.col = 0 := by
  induction h with
  | nil => intro c hf; simp [findFirstContainingCell] at hf
  | cons b rest hb _ ih =>
    intro c hf
    cases b with
    | nil =>
      rw [List.nil_append] at hf
      exact ih c hf
    | cons c0 cs =>
      rw [List.cons_append, findFirstContainingCell] at hf
      split at hf
      · injection hf with h'
        subst h'
        exact hb.2 _ rfl
      · rename_i hcond
        obtain ⟨⟨p, ys, ye, hall⟩, _⟩ := hb
        have hc0 := hall c0 (List.mem_cons_self _ _)
        have hskip : ∀ d ∈ cs, ¬(d.y_start ≤ y ∧ y ≤ d.y_end) := by
          intro d hd
          have hdprop := hall d (List.mem_cons_of_mem c0 hd)
          rw [hdprop.2.1, hdprop.2.2]
          rw [hc0.2.1, hc0.2.2] at hcond
          exact hcond
        rw [findFirstContainingCell_skip y cs rest hskip] at hf
        exact ih c hf

/-- **C9.** Every mapping the Y-axis mapper emits over cells produced by
`_extract_table_cells` pairs the image with a column-`0` cell: all cells of a
row share the row's vertical interval and are emitted row-major, so the first
containing cell is always the first cell of its row — the mapper identifies
rows, never individual columns. -/
theorem claim_C9_y_axis_maps_to_column_zero (pages : List (List RawTable))
    (images : List YImage) (m : YMapping)
    (hm : m ∈ createYAxisMappings images (extractTableCells pages)) :
    m.cell.col = 0 := by
  unfold createYAxisMappings at hm
  obtain ⟨image, _, hbody⟩ := List.mem_filterMap.mp hm
  cases hbest : bestCellFor image (extractTableCells pages) with
  | none => rw [hbest] at hbody; simp at hbody
  | some best =>
    rw [hbest] at hbody
    simp only [Option.some.injEq] at hbody
    have hcol : best.col = 0 := by
      unfold bestCellFor at hbest
      exact findFirst_rowBlocks_col image.bbox.y1 _
        (rowBlocks_filter _ _ (rowBlocks_extractTableCells pages)) best hbest
    rw [← hbody]
    exact hcol

theorem extractTableCells_ex :
    extractTableCells [[exRawTable]] =
      [exYCell, ⟨1, 1, 0, 1, 0, 10, "B", ⟨0, 0, 100, 10⟩⟩] := by
  have hA : cellTextOf (some "A") = "A" := by decide
  have hB : cellTextOf (some "B") = "B" := by decide
  simp [extractTableCells, cellsOfTable, rowCells, exRawTable, exYCell,
    List.enum, List.enumFrom, hA, hB, YCell.mk.injEq, QBBox.mk.injEq]

theorem createYAxisMappings_ex :
    createYAxisMappings [exYImage] (extractTableCells [[exRawTable]]) =
      [⟨exYImage, exYCell, 5⟩] := by
  have hbest : bestCellFor exYImage
      [exYCell, ⟨1, 1, 0, 1, 0, 10, "B", ⟨0, 0, 100, 10⟩⟩] = some exYCell := by
    decide
  rw [extractTableCells_ex, createYAxisMappings]
  simp only [List.filterMap_cons, List.filterMap_nil, hbest]
  rfl

/-- Witness for C9: the concrete one-row two-column table; the emitted mapping
selects column `0`. -/
theorem claim_C9_witness :
    (⟨exYImage, exYCell, 5⟩ : YMapping).cell.col = 0 :=
  claim_C9_y_axis_maps_to_column_zero [[exRawTable]] [exYImage] ⟨exYImage, exYCell, 5⟩
    (by rw [createYAxisMappings_ex]; exact List.mem_singleton_self _)

end SIM

/-- **C8.** Both the cell-level mapper and the Y-axis containment mapper emit
at most one mapping per image: over duplicate-free input image lists, no two
emitted mapping records of one run carry the same image. -/
theorem claim_C8_at_most_one_mapping_per_image
    (images : List ITM.ImageInfo) (tables : List ITM.TableInfo) (threshold : ℝ)
    (yimages : List SIM.YImage) (cells : List SIM.YCell)
    (h1 : images.Nodup) (h2 : yimages.Nodup) :
    (ITM.mapImagesToCells images tables threshold).Pairwise
      (fun a b => a.image ≠ b.image) ∧
    (SIM.createYAxisMappings yimages cells).Pairwise
      (fun a b => a.image ≠ b.image) := by
  constructor
  · refine filterMap_pairwise_key_ne _ ITM.ImageCellMapping.image _ ?_ h1
    intro image m hm
    rw [ITM.bestMappingFor_eq_specFirstMax] at hm
    exact (ITM.mem_candidateMappings image tables threshold m
      (ITM.specFirstMax_mem _ _ hm)).1
  · refine filterMap_pairwise_key_ne _ SIM.YMapping.image _ ?_ h2
    intro image m hm
    cases hbest : SIM.bestCellFor image cells with
    | none => rw [hbest] at hm; simp at hm
    | some best =>
      rw [hbest] at hm
      simp only [Option.some.injEq] at hm
      rw [← hm]

/-- Witness for C8 on concrete single-image inputs to both mappers. -/
theorem claim_C8_witness :
    (ITM.mapImagesToCells [ITM.exImage] [ITM.exTable] (1 / 10)).Pairwise
      (fun a b => a.image ≠ b.image) ∧
    (SIM.createYAxisMappings [SIM.exYImage] [SIM.exYCell]).Pairwise
      (fun a b => a.image ≠ b.image) :=
  claim_C8_at_most_one_mapping_per_image [ITM.exImage] [ITM.exTable] (1 / 10)
    [SIM.exYImage] [SIM.exYCell] (by simp) (by simp)

namespace CIM

theorem maxByY_eq_none_iff (l : List PageQuestion) : maxByY l = none ↔ l = [] := by
  cases l with
  | nil => simp [maxByY]
  | cons q qs =>
    simp only [maxByY]
    cases maxByY qs <;> simp

theorem maxByY_mem (l : List PageQuestion) (m : PageQuestion)
    (h : maxByY l = some m) : m ∈ l := by
  induction l generalizing m with
  | nil => simp [maxByY] at h
  | cons q qs ih =>
    rw [maxByY] at h
    cases hs : maxByY qs with
    | none =>
      rw [hs] at h
      simp only [Option.some.injEq] at h
      exact h ▸ List.mem_cons_self q qs
    | some n =>
      rw [hs] at h
      simp only [Option.some.injEq] at h
      by_cases hc : n.y_coordinate > q.y_coordinate
      · rw [if_pos hc] at h
        exact h ▸ List.mem_cons_of_mem q (ih n hs)
      · rw [if_neg hc] at h
        exact h ▸ List.mem_cons_self q qs

theorem maxByY_isMax (l : List PageQuestion) (m : PageQuestion)
    (h : maxByY l = some m) : ∀ q ∈ l, q.y_coordinate ≤ m.y_coordinate := by
  induction l generalizing m with
  | nil => simp [maxByY] at h
  | cons q qs ih =>
    rw [maxByY] at h
    intro r hr
    cases hs : maxByY qs with
    | none =>
      rw [hs] at h
      simp only [Option.some.injEq] at h
      rw [(maxByY_eq_none_iff qs).mp hs] at hr
      rcases List.mem_singleton.mp hr with rfl
      exact h ▸ le_refl _
    | some n =>
      rw [hs] at h
      simp only [Option.some.injEq] at h
      rcases List.mem_cons.mp hr with rfl | hr'
      · by_cases hc : n.y_coordinate > r.y_coordinate
        · rw [if_pos hc] at h
          exact h ▸ le_of_lt hc
        · rw [if_neg hc] at h
          exact h ▸ le_refl _
      · have hle := ih n hs r hr'
        by_cases hc : n.y_coordinate > q.y_coordinate
        · rw [if_pos hc] at h
          exact h ▸ hle
        · rw [if_neg hc] at h
          rw [not_lt] at hc
          exact h ▸ le_trans hle hc

theorem minByY_eq_none_iff (l : List PageQuestion) : minByY l = none ↔ l = [] := by
  cases l with
  | nil => simp [minByY]
  | cons q qs =>
    simp only [minByY]
    cases minByY qs <;> simp

theorem minByY_mem (l : List PageQuestion) (m : PageQuestion)
    (h : minByY l = some m) : m ∈ l := by
  induction l generalizing m with
  | nil => simp [minByY] at h
  | cons q qs ih =>
    rw [minByY] at h
    cases hs : minByY qs with
    | none =>
      rw [hs] at h
      simp only [Option.some.injEq] at h
      exact h ▸ List.mem_cons_self q qs
    | some n =>
      rw [hs] at h
      simp only [Option.some.injEq] at h
      by_cases hc : n.y_coordinate < q.y_coordinate
      · rw [if_pos hc] at h
        exact h ▸ List.mem_cons_of_mem q (ih n hs)
      · rw [if_neg hc] at h
        exact h ▸ List.mem_cons_self q qs

theorem minByY_isMin (l : List PageQuestion) (m : PageQuestion)
    (h : minByY l = some m) : ∀ q ∈ l, m.y_coordinate ≤ q.y_coordinate := by
  induction l generalizing m with
  | nil => simp [minByY] at h
  | cons q qs ih =>
    rw [minByY] at h
    intro r hr
    cases hs : minByY qs with
    | none =>
      rw [hs] at h
      simp only [Option.some.injEq] at h
      rw [(minByY_eq_none_iff qs).mp hs] at hr
      rcases List.mem_singleton.mp hr with rfl
      exact h ▸ le_refl _
    | some n =>
      rw [hs] at h
      simp only [Option.some.injEq] at h
      rcases List.mem_cons.mp hr with rfl | hr'
      · by_cases hc : n.y_coordinate < r.y_coordinate
        · rw [if_pos hc] at h
          exact h ▸ le_of_lt hc
        · rw [if_neg hc] at h
          exact h ▸ le_refl _
      · have hle := ih n hs r hr'
        by_cases hc : n.y_coordinate < q.y_coordinate
        · rw [if_pos hc] at h
          exact h ▸ hle
        · rw [if_neg hc] at h
          rw [not_lt] at hc
          exact h ▸ le_trans hc hle

end CIM

namespace CTM

theorem ctm_maxByY_eq_none_iff (l : List CQuestion) : maxByY l = none ↔ l = [] := by
  cases l with
  | nil => simp [maxByY]
  | cons q qs =>
    simp only [maxByY]
    cases maxByY qs <;> simp

theorem ctm_maxByY_mem (l : List CQuestion) (m : CQuestion)
    (h : maxByY l = some m) : m ∈ l := by
  induction l generalizing m with
  | nil => simp [maxByY] at h
  | cons q qs ih =>
    rw [maxByY] at h
    cases hs : maxByY qs with
    | none =>
      rw [hs] at h
      simp only [Option.some.injEq] at h
      exact h ▸ List.mem_cons_self q qs
    | some n =>
      rw [hs] at h
      simp only [Option.some.injEq] at h
      by_cases hc : n.y_coordinate > q.y_coordinate
      · rw [if_pos hc] at h
        exact h ▸ List.mem_cons_of_mem q (ih n hs)
      · rw [if_neg hc] at h
        exact h ▸ List.mem_cons_self q qs

theorem ctm_maxByY_isMax (l : List CQuestion) (m : CQuestion)
    (h : maxByY l = some m) : ∀ q ∈ l, q.y_coordinate ≤ m.y_coordinate := by
  induction l generalizing m with
  | nil => simp [maxByY] at h
  | cons q qs ih =>
    rw [maxByY] at h
    intro r hr
    cases hs : maxByY qs with
    | none =>
      rw [hs] at h
      simp only [Option.some.injEq] at h
      rw [(ctm_maxByY_eq_none_iff qs).mp hs] at hr
      rcases List.mem_singleton.mp hr with rfl
      exact h ▸ le_refl _
    | some n =>
      rw [hs] at h
      simp only [Option.some.injEq] at h
      rcases List.mem_cons.mp hr with rfl | hr'
      · by_cases hc : n.y_coordinate > r.y_coordinate
        · rw [if_pos hc] at h
          exact h ▸ le_of_lt hc
        · rw [if_neg hc] at h
          exact h ▸ le_refl _
      · have hle := ih n hs r hr'
        by_cases hc : n.y_coordinate > q.y_coordinate
        · rw [if_pos hc] at h
          exact h ▸ hle
        · rw [if_neg hc] at h
          rw [not_lt] at hc
          exact h ▸ le_trans hle hc

end CTM

/-- **C2.** For every image (and, in the separately implemented table pass,
every table) with at least one question label strictly above it
(`label.y < target.y0`), the question-level coordinate mapper selects the
qualifying label of maximum `y` — the closest label above, not the topmost
label of the page. -/
theorem claim_C2_nearest_above_selection :
    (∀ (image : CIM.QImage) (questions : List CIM.PageQuestion)
      (q0 : CIM.PageQuestion), q0 ∈ questions →
      q0.y_coordinate < image.coords.y0 →
      ∃ closest,
        CIM.maxByY (questions.filter
          (fun q => decide (q.y_coordinate < image.coords.y0))) = some closest ∧
        CIM.mapImageToQuestion image questions =
          some ⟨image, closest,
            ⟨"coordinate_based", image.coords.y0 - closest.y_coordinate,
              CIM.confidenceTier (image.coords.y0 - closest.y_coordinate)⟩⟩ ∧
        closest ∈ questions ∧ closest.y_coordinate < image.coords.y0 ∧
        ∀ q ∈ questions, q.y_coordinate < image.coords.y0 →
          q.y_coordinate ≤ closest.y_coordinate) ∧
    (∀ (table : CTM.CTable) (questions : List CTM.CQuestion)
      (q0 : CTM.CQuestion), q0 ∈ questions → q0.page = table.page_number →
      q0.y_coordinate < table.y_coordinate →
      ∃ closest,
        (CTM.linkTable table questions).linked_question =
          some closest.question_number ∧
        closest ∈ questions ∧ closest.page = table.page_number ∧
        closest.y_coordinate < table.y_coordinate ∧
        ∀ q ∈ questions, q.page = table.page_number →
          q.y_coordinate < table.y_coordinate →
          q.y_coordinate ≤ closest.y_coordinate) := by
  constructor
  · intro image questions q0 hq0 hlt
    have hq0f : q0 ∈ questions.filter
        (fun q => decide (q.y_coordinate < image.coords.y0)) :=
      List.mem_filter.mpr ⟨hq0, decide_eq_true hlt⟩
    cases hmax : CIM.maxByY (questions.filter
        (fun q => decide (q.y_coordinate < image.coords.y0))) with
    | none =>
      rw [CIM.maxByY_eq_none_iff] at hmax
      rw [hmax] at hq0f
      simp at hq0f
    | some closest =>
      have hmf := List.mem_filter.mp (CIM.maxByY_mem _ _ hmax)
      refine ⟨closest, rfl, ?_, hmf.1, of_decide_eq_true hmf.2, ?_⟩
      · unfold CIM.mapImageToQuestion
        rw [hmax]
      · intro q hq hql
        exact CIM.maxByY_isMax _ _ hmax q
          (List.mem_filter.mpr ⟨hq, decide_eq_true hql⟩)
  · intro table questions q0 hq0 hpage hlt
    have hq0f : q0 ∈ questions.filter (fun q =>
        q.page == table.page_number && decide (q.y_coordinate < table.y_coordinate)) := by
      refine List.mem_filter.mpr ⟨hq0, ?_⟩
      simp [hpage, hlt]
    cases hmax : CTM.maxByY (questions.filter (fun q =>
        q.page == table.page_number && decide (q.y_coordinate < table.y_coordinate))) with
    | none =>
      rw [CTM.ctm_maxByY_eq_none_iff] at hmax
      rw [hmax] at hq0f
      simp at hq0f
    | some closest =>
      have hmf := List.mem_filter.mp (CTM.ctm_maxByY_mem _ _ hmax)
      have hconds := hmf.2
      rw [Bool.and_eq_true] at hconds
      refine ⟨closest, ?_, hmf.1, by simpa using hconds.1,
        of_decide_eq_true hconds.2, ?_⟩
      · unfold CTM.linkTable
        rw [hmax]
      · intro q hq hqpage hql
        refine CTM.ctm_maxByY_isMax _ _ hmax q (List.mem_filter.mpr ⟨hq, ?_⟩)
        simp [hqpage, hql]

/-- Witness for C2, spec scenario §8.7: labels at `y = 50, 150, 300`, image
top at `y0 = 200` — the mapper selects the `y = 150` label. -/
theorem claim_C2_witness :
    CIM.mapImageToQuestion CIM.exImgY200 [CIM.exQ50, CIM.exQ150, CIM.exQ300] =
      some ⟨CIM.exImgY200, CIM.exQ150,
        ⟨"coordinate_based",
          CIM.exImgY200.coords.y0 - CIM.exQ150.y_coordinate,
          CIM.confidenceTier
            (CIM.exImgY200.coords.y0 - CIM.exQ150.y_coordinate)⟩⟩ := by
  obtain ⟨closest, hmax, heq, -, -, -⟩ :=
    claim_C2_nearest_above_selection.1 CIM.exImgY200
      [CIM.exQ50, CIM.exQ150, CIM.exQ300] CIM.exQ150 (by simp) (by decide)
  have hev : CIM.maxByY ([CIM.exQ50, CIM.exQ150, CIM.exQ300].filter
      (fun q => decide (q.y_coordinate < CIM.exImgY200.coords.y0))) =
      some CIM.exQ150 := by decide
  rw [hev] at hmax
  injection hmax with hmax'
  rw [← hmax'] at heq
  exact heq

/-- **C3 (amended).** When a page has labels but none strictly above the
target: the image mapper emits a fallback mapping to the topmost label
(minimum `y`) with method `coordinate_based_fallback` and confidence `low`;
the separately implemented table pass, however, performs no fallback — it
sets the table's `linked_question` to `None`. -/
theorem claim_C3_fallback_behavior :
    (∀ (image : CIM.QImage) (questions : List CIM.PageQuestion),
      questions ≠ [] →
      (∀ q ∈ questions, ¬(q.y_coordinate < image.coords.y0)) →
      ∃ first, CIM.minByY questions = some first ∧
        CIM.mapImageToQuestion image questions =
          some ⟨image, first,
            ⟨"coordinate_based_fallback",
              |image.coords.y0 - first.y_coordinate|, "low"⟩⟩ ∧
        first ∈ questions ∧
        ∀ q ∈ questions, first.y_coordinate ≤ q.y_coordinate) ∧
    (∀ (table : CTM.CTable) (questions : List CTM.CQuestion),
      (∀ q ∈ questions, q.page = table.page_number →
        ¬(q.y_coordinate < table.y_coordinate)) →
      (CTM.linkTable table questions).linked_question = none) := by
  constructor
  · intro image questions h1 h2
    have hfil : questions.filter
        (fun q => decide (q.y_coordinate < image.coords.y0)) = [] := by
      apply List.filter_eq_nil_iff.mpr
      intro q hq
      simpa using h2 q hq
    cases hmin : CIM.minByY questions with
    | none => exact absurd ((CIM.minByY_eq_none_iff questions).mp hmin) h1
    | some first =>
      refine ⟨first, rfl, ?_, CIM.minByY_mem _ _ hmin, CIM.minByY_isMin _ _ hmin⟩
      unfold CIM.mapImageToQuestion
      rw [hfil]
      show (match CIM.minByY questions with
        | some f => some (⟨image, f,
            ⟨"coordinate_based_fallback",
              |image.coords.y0 - f.y_coordinate|, "low"⟩⟩ : CIM.QMapping)
        | none => none) = _
      rw [hmin]
  · intro table questions h
    have hfil : questions.filter (fun q =>
        q.page == table.page_number &&
          decide (q.y_coordinate < table.y_coordinate)) = [] := by
      apply List.filter_eq_nil_iff.mpr
      intro q hq
      by_cases hp : q.page = table.page_number
      · simp [hp, h q hq hp]
      · simp [hp]
    unfold CTM.linkTable
    rw [hfil]
    rfl

/-- C3 as stated is false for the table pass: a table above its page's only
label receives `linked_question = None`, not a fallback mapping to the
topmost label. -/
theorem claim_C3_counterexample :
    CTM.exCQuestion.page = CTM.exCTable.page_number ∧
    ¬(CTM.exCQuestion.y_coordinate < CTM.exCTable.y_coordinate) ∧
    (CTM.linkTable CTM.exCTable [CTM.exCQuestion]).linked_question = none := by
  decide

/-- Witness for the amended C3, spec scenario §8.8: image at `y0 = 10` with
labels at `y = 50, 150` falls back to the topmost label. -/
theorem claim_C3_witness :
    ∃ first, CIM.minByY [CIM.exQ50, CIM.exQ150] = some first ∧
      CIM.mapImageToQuestion CIM.exImgY10 [CIM.exQ50, CIM.exQ150] =
        some ⟨CIM.exImgY10, first,
          ⟨"coordinate_based_fallback",
            |CIM.exImgY10.coords.y0 - first.y_coordinate|, "low"⟩⟩ ∧
      first ∈ [CIM.exQ50, CIM.exQ150] ∧
      ∀ q ∈ [CIM.exQ50, CIM.exQ150], first.y_coordinate ≤ q.y_coordinate :=
  claim_C3_fallback_behavior.1 CIM.exImgY10 [CIM.exQ50, CIM.exQ150]
    (by simp) (by decide)

/-- **C10.** On a page with zero detected question labels the image mapper
emits no mapping at all — neither direct nor fallback — and returns normally
(the empty mapping list). -/
theorem claim_C10_no_labels_no_mapping (images : List CIM.QImage)
    (image : CIM.QImage) :
    CIM.matchImagesToQuestions images [] = [] ∧
      CIM.mapImageToQuestion image [] = none := by
  have h : ∀ im : CIM.QImage, CIM.mapImageToQuestion im [] = none := fun _ => rfl
  refine ⟨?_, h image⟩
  unfold CIM.matchImagesToQuestions
  induction images with
  | nil => rfl
  | cons a as ih =>
    rw [List.filterMap_cons, h a]
    exact ih

/-- **C4 (amended).** Identifier reconciliation is containment matching and
applies an asset to every satisfying question, but the two passes differ: for
image mappings a question receives the asset iff the mapping is on the
question's page and the question's stripped identifier occurs in the mapper's
stripped label; for table mappings the page is never compared — containment
against a truthy linked-question string alone decides. -/
theorem claim_C4_containment_reconciliation :
    (∀ (questions : List TE.MQuestion) (mappings : List CIM.QMapping) (i : Nat),
      (TE.mergeResults questions mappings)[i]? = questions[i]?.map (fun q =>
        { q with
            assets := q.assets ++
              (mappings.filter (TE.imageMatchCond q)).map
                (fun mp => TE.mkImageAsset q.question_number mp.image) })) ∧
    (∀ (q : TE.MQuestion) (mp : CIM.QMapping),
      TE.imageMatchCond q mp = true ↔
        mp.question.page = q.pdf_page ∧
        PyStr.pyIn (PyStr.pyStrip q.question_number)
          (PyStr.pyStrip mp.question.question_number) = true) ∧
    (∀ (questions : List TE.MQuestion) (tables : List CTM.CTable) (i : Nat),
      (TE.linkTableAssets questions tables)[i]? = questions[i]?.map (fun q =>
        { q with assets := q.assets ++ tables.filterMap (TE.tableAssetFor q) })) ∧
    (∀ (q : TE.MQuestion) (t : CTM.CTable),
      TE.tableAssetFor q t = some (TE.mkTableAsset t) ↔
        ∃ lq, t.linked_question = some lq ∧ lq ≠ "" ∧
          PyStr.pyIn (PyStr.pyStrip q.question_number) (PyStr.pyStrip lq) = true) := by
  refine ⟨?_, ?_, ?_, ?_⟩
  · intro questions mappings i
    simp only [TE.mergeResults, List.getElem?_map]
  · intro q mp
    simp [TE.imageMatchCond, Bool.and_eq_true, beq_iff_eq]
  · intro questions tables i
    simp only [TE.linkTableAssets, List.getElem?_map]
  · intro q t
    unfold TE.tableAssetFor
    cases t.linked_question with
    | none => simp
    | some lq =>
      by_cases h0 : lq = ""
      · simp [h0]
      · by_cases hin : PyStr.pyIn (PyStr.pyStrip q.question_number) (PyStr.pyStrip lq) = true
        · simp [h0, hin]
        · simp [h0, hin]

/-- C4 as stated is false for the table pass: a question on page 2 receives a
table asset from a page-1 mapping because `_link_tables_using_coordinate_mapper`
checks containment but never compares pages. -/
theorem claim_C4_counterexample :
    TE.exQuestionPage2.pdf_page ≠ TE.exLinkedTable.page_number ∧
    TE.linkTableAssets [TE.exQuestionPage2] [TE.exLinkedTable] =
      [{ TE.exQuestionPage2 with assets := [TE.mkTableAsset TE.exLinkedTable] }] := by
  constructor
  · decide
  · decide

/-- Witness for the amended C4: the containment-only table condition admits
the cross-page example pair. -/
theorem claim_C4_witness :
    TE.tableAssetFor TE.exQuestionPage2 TE.exLinkedTable =
      some (TE.mkTableAsset TE.exLinkedTable) :=
  (claim_C4_containment_reconciliation.2.2.2 TE.exQuestionPage2 TE.exLinkedTable).mpr
    ⟨"1. Compute", rfl, by decide, by decide⟩

namespace SEE

theorem digitVal_digitChar (d : Nat) (hd : d < 10) :
    digitVal (Nat.digitChar d) = d := by
  interval_cases d <;> rfl

theorem digitsVal_append (l : List Char) (c : Char) :
    digitsVal (l ++ [c]) = digitsVal l * 10 + digitVal c := by
  unfold digitsVal
  rw [List.foldl_append]
  rfl

theorem digitsVal_singleton (c : Char) : digitsVal [c] = digitVal c := by
  unfold digitsVal
  simp

theorem toDigitsCore_shift (n : Nat) : ∀ (fuel : Nat) (ds : List Char), n < fuel →
    Nat.toDigitsCore 10 fuel n ds = Nat.toDigitsCore 10 (n + 1) n [] ++ ds := by
  induction n using Nat.strong_induction_on with
  | _ n ih =>
    intro fuel ds hlt
    cases fuel with
    | zero => omega
    | succ f =>
      by_cases h0 : n / 10 = 0
      · simp [Nat.toDigitsCore, h0]
      · have hn0 : 0 < n := by
          rcases Nat.eq_zero_or_pos n with rfl | h
          · simp at h0
          · exact h
        have hn' : n / 10 < n := Nat.div_lt_self hn0 (by omega)
        simp only [Nat.toDigitsCore, h0, if_neg, ite_false]
        rw [ih (n / 10) hn' f _ (by omega), ih (n / 10) hn' n _ (by omega),
          List.append_assoc]
        rfl

theorem digitsVal_toDigits (n : Nat) : digitsVal (Nat.toDigits 10 n) = n := by
  induction n using Nat.strong_induction_on with
  | _ n ih =>
    unfold Nat.toDigits
    by_cases h0 : n / 10 = 0
    · have hlt : n < 10 := (Nat.div_eq_zero_iff (by omega)).mp h0
      simp only [Nat.toDigitsCore, h0, ite_true, if_pos]
      rw [digitsVal_singleton, digitVal_digitChar (n % 10) (Nat.mod_lt _ (by omega))]
      omega
    · have hn0 : 0 < n := by
        rcases Nat.eq_zero_or_pos n with rfl | h
        · simp at h0
        · exact h
      have hn' : n / 10 < n := Nat.div_lt_self hn0 (by omega)
      simp only [Nat.toDigitsCore, h0, ite_false]
      rw [toDigitsCore_shift (n / 10) n _ (by omega)]
      rw [digitsVal_append]
      have hrec : Nat.toDigitsCore 10 (n / 10 + 1) (n / 10) [] = Nat.toDigits 10 (n / 10) := rfl
      rw [hrec, ih (n / 10) hn', digitVal_digitChar (n % 10) (Nat.mod_lt _ (by omega))]
      omega

theorem nat_repr_injective : Function.Injective Nat.repr := by
  intro a b h
  have hd : Nat.toDigits 10 a = Nat.toDigits 10 b := by
    have := congrArg String.data h
    simpa [Nat.repr, List.asString] using this
  have := congrArg digitsVal hd
  rwa [digitsVal_toDigits, digitsVal_toDigits] at this

theorem candidateAt_injective (original : String) :
    Function.Injective (candidateAt original) := by
  intro j k h
  have hlen := congrArg String.length h
  cases j with
  | zero =>
    cases k with
    | zero => rfl
    | succ k' =>
      exfalso
      simp only [candidateAt, String.length_append] at hlen
      have h1 : 0 < (Nat.repr (k' + 1)).length := by
        have : Nat.toDigits 10 (k' + 1) ≠ [] := by
          intro hnil
          have := digitsVal_toDigits (k' + 1)
          rw [hnil] at this
          simp [digitsVal] at this
        exact List.length_pos.mpr this
      have hone : ("_" : String).length = 1 := rfl
      omega
  | succ j' =>
    cases k with
    | zero =>
      exfalso
      simp only [candidateAt, String.length_append] at hlen
      have h1 : 0 < (Nat.repr (j' + 1)).length := by
        have hne : Nat.toDigits 10 (j' + 1) ≠ [] := by
          intro hnil
          have := digitsVal_toDigits (j' + 1)
          rw [hnil] at this
          simp [digitsVal] at this
        exact List.length_pos.mpr hne
      have hone : ("_" : String).length = 1 := rfl
      omega
    | succ k' =>
      have hdat := congrArg String.data h
      simp only [candidateAt, String.data_append, List.append_assoc] at hdat
      have h2 := List.append_cancel_left hdat
      have h3 := List.append_cancel_left h2
      have h4 : Nat.repr (j' + 1) = Nat.repr (k' + 1) := String.ext h3
      exact congrArg (fun n => n) (nat_repr_injective h4)

end SEE

namespace SEE

theorem exists_candidateAt_not_mem (processed : List String) (original : String) :
    ∃ k, k ≤ processed.length ∧ candidateAt original k ∉ processed := by
  by_contra h
  push_neg at h
  have hsub : ((List.range (processed.length + 1)).map (candidateAt original)) ⊆
      processed := by
    intro x hx
    obtain ⟨k, hk, rfl⟩ := List.mem_map.mp hx
    have hk' := List.mem_range.mp hk
    exact h k (by omega)
  have hnd : ((List.range (processed.length + 1)).map (candidateAt original)).Nodup :=
    (List.nodup_range _).map (candidateAt_injective original)
  have hle := (hnd.subperm hsub).length_le
  simp at hle

theorem dedupGo_eq (processed : List String) (original : String) :
    ∀ (fuel start k : Nat), start ≤ k → k - start < fuel →
    candidateAt original k ∉ processed →
    (∀ j, start ≤ j → j < k → candidateAt original j ∈ processed) →
    dedupGo processed original fuel start = candidateAt original k := by
  intro fuel
  induction fuel with
  | zero =>
    intro start k h1 h2 _ _
    omega
  | succ f ih =>
    intro start k h1 h2 hk hall
    by_cases hs : start = k
    · subst hs
      simp only [dedupGo]
      rw [if_neg hk]
    · have hstart : candidateAt original start ∈ processed :=
        hall start (le_refl _) (by omega)
      simp only [dedupGo]
      rw [if_pos hstart]
      exact ih (start + 1) k (by omega) (by omega) hk
        (fun j hj1 hj2 => hall j (by omega) hj2)

theorem dedup_eq (processed : List String) (original : String) (k : Nat)
    (hk : candidateAt original k ∉ processed)
    (hall : ∀ j, j < k → candidateAt original j ∈ processed) :
    dedup processed original = candidateAt original k := by
  have hksmall : k ≤ processed.length := by
    have hsub : ((List.range k).map (candidateAt original)) ⊆ processed := by
      intro x hx
      obtain ⟨j, hj, rfl⟩ := List.mem_map.mp hx
      exact hall j (List.mem_range.mp hj)
    have hnd : ((List.range k).map (candidateAt original)).Nodup :=
      (List.nodup_range _).map (candidateAt_injective original)
    have hle := (hnd.subperm hsub).length_le
    simpa using hle
  exact dedupGo_eq processed original (processed.length + 1) 0 k (Nat.zero_le k)
    (by omega) hk (fun j _ hj => hall j hj)

theorem dedup_not_mem (processed : List String) (original : String) :
    dedup processed original ∉ processed := by
  obtain ⟨k, _, hnot⟩ := exists_candidateAt_not_mem processed original
  have hex : ∃ m, candidateAt original m ∉ processed := ⟨k, hnot⟩
  rw [dedup_eq processed original (Nat.find hex) (Nat.find_spec hex)
    (fun j hj => Decidable.not_not.mp (Nat.find_min hex hj))]
  exact Nat.find_spec hex

theorem assignIdsGo_nodup (raws : List String) :
    ∀ processed, (assignIdsGo processed raws).Nodup ∧
      ∀ x ∈ assignIdsGo processed raws, x ∉ processed := by
  induction raws with
  | nil =>
    intro processed
    exact ⟨List.nodup_nil, by simp [assignIdsGo]⟩
  | cons r rs ih =>
    intro processed
    simp only [assignIdsGo]
    obtain ⟨hnd, hnotin⟩ := ih (dedup processed r :: processed)
    refine ⟨List.nodup_cons.mpr ⟨?_, hnd⟩, ?_⟩
    · intro hmem
      exact (hnotin _ hmem) (List.mem_cons_self _ _)
    · intro x hx
      rcases List.mem_cons.mp hx with rfl | hx'
      · exact dedup_not_mem processed r
      · intro hxp
        exact (hnotin x hx') (List.mem_cons_of_mem _ hxp)

/-- **C6.** The duplicate-suppression loop: a raw identifier not yet emitted
is kept verbatim (`k = 0`); a colliding one receives the smallest unused
numeric suffix (`k ≥ 1`); and a whole run's emitted identifiers, scanned in
generation order, are pairwise distinct. -/
theorem claim_C6_duplicate_id_suffixing :
    (∀ (processed : List String) (original : String) (k : Nat),
      candidateAt original k ∉ processed →
      (∀ j, j < k → candidateAt original j ∈ processed) →
      dedup processed original = candidateAt original k) ∧
    ∀ raws : List String, (assignIds raws).Nodup :=
  ⟨dedup_eq, fun raws => (assignIdsGo_nodup raws []).1⟩

/-- Witness for C6, spec scenario §8.9: a second `"page1_question1"` becomes
`"page1_question1_1"`. -/
theorem claim_C6_witness :
    dedup ["page1_question1"] "page1_question1" = "page1_question1_1" :=
  (claim_C6_duplicate_id_suffixing.1 ["page1_question1"] "page1_question1" 1
    (by decide)
    (by
      intro j hj
      have hj0 : j = 0 := by omega
      subst hj0
      decide)).trans (by decide)

end SEE
